import Mathlib

/-!
Verification development for the QuickFetch fetch-and-cache engine.

The definitions below are a shallow embedding of the Rust sources:
  - `src/src/lib.rs`            (the `Fetcher` coordinator),
  - `src/src/key_val.rs`        (`SimpleValue` and its codec),
  - `src/quickfetch_traits/src/lib.rs` (`encrypt_generic` / `decrypt_generic`).

Modelling conventions:
  - byte strings are `List Nat`;
  - the sled database is an association list with `get`, `insert`, `remove`,
    `compare_and_swap` mirroring the sled operations the code uses;
  - the HTTP client together with `resp_bytes` is a function from URL bytes to
    body bytes (`Fetcher.http`), since all three response methods return the
    complete body;
  - asynchronous per-entry tasks are linearised: a fetch pass processes the
    entry list in order, and the suspension point between the `db.get` and the
    `compare_and_swap` of a handler (the awaited HTTP request) is made explicit
    as an interference function on the store;
  - the random AEAD nonce is an explicit argument;
  - fallible operations (`unwrap` on a missing db key) return `Option`.
-/

namespace QuickFetch

/-- Byte strings (`Vec<u8>` / `IVec`). -/
abbrev Bytes := List Nat

/-! ### The sled store model -/

/-- The sled `Db` contents: an association list from key bytes to value bytes. -/
abbrev Store := List (Bytes × Bytes)

/-- `Db::get`: the value stored under a key, if present. -/
def Store.get : Store → Bytes → Option Bytes
  | [], _ => none
  | (k, v) :: rest, key => if k = key then some v else Store.get rest key

/-- `Db::insert`: store a value under a key, replacing any prior value. -/
def Store.insert : Store → Bytes → Bytes → Store
  | [], key, val => [(key, val)]
  | (k, v) :: rest, key, val =>
      if k = key then (key, val) :: rest else (k, v) :: Store.insert rest key val

/-- `Db::remove`: delete the record stored under a key. -/
def Store.remove : Store → Bytes → Store
  | [], _ => []
  | (k, v) :: rest, key => if k = key then rest else (k, v) :: Store.remove rest key

/-- `Db::contains_key`. -/
def Store.containsKey (s : Store) (key : Bytes) : Bool :=
  (Store.get s key).isSome

/-- `Db::compare_and_swap(key, old, new)`: writes `new` (an insert, or a removal
when `new` is `none`) exactly when the current value equals `old`; the returned
flag is the inner success result, which the coordinator discards. -/
def Store.compareAndSwap (s : Store) (key : Bytes) (expected desired : Option Bytes) :
    Store × Bool :=
  if Store.get s key = expected then
    (match desired with
     | some d => Store.insert s key d
     | none => Store.remove s key, true)
  else (s, false)

/-! ### The entry model (`key_val.rs`, `quickfetch_traits`) -/

/-- `SimpleValue`: version, url and response payload, each as bytes
(the `version`/`url` strings via UTF-8). -/
structure SimpleValue where
  version : Bytes
  url : Bytes
  response : Bytes
deriving DecidableEq

/-- One field of the bincode encoding: a length prefix followed by the bytes
(bincode's `u64` length word is modelled as a single cell). -/
def encodeField (xs : Bytes) : Bytes := xs.length :: xs

/-- Decode one length-prefixed field, returning the field and the remainder. -/
def decodeField : Bytes → Bytes × Bytes
  | [] => ([], [])
  | n :: rest => (rest.take n, rest.drop n)

/-- `EntryValue::bytes` for `SimpleValue`: `bincode::serialize` of the three
fields in declaration order. -/
def SimpleValue.bytes (v : SimpleValue) : Bytes :=
  encodeField v.version ++ encodeField v.url ++ encodeField v.response

/-- `EntryValue::from_ivec` for `SimpleValue`: `bincode::deserialize`. -/
def SimpleValue.from_ivec (b : Bytes) : SimpleValue :=
  let p1 := decodeField b
  let p2 := decodeField p1.2
  let p3 := decodeField p2.2
  ⟨p1.1, p2.1, p3.1⟩

/-- `EntryValue::is_same` for `SimpleValue`: compares the `version` field only
(the payload and the url are not part of the identity). -/
def SimpleValue.is_same (a b : SimpleValue) : Bool :=
  a.version == b.version

/-- `EntryValue::set_response`. -/
def SimpleValue.set_response (v : SimpleValue) (r : Bytes) : SimpleValue :=
  { v with response := r }

/-- An entry (the `Entry` trait): `key()` returns the key whose `bytes()` are
the key itself (a UTF-8 string key), `value()` the `SimpleValue`. -/
structure SimpleEntry where
  key : Bytes
  value : SimpleValue
deriving DecidableEq

/-! ### Coordinator state (`Fetcher` in `lib.rs`) -/

/-- `ResponseMethod`. -/
inductive ResponseMethod where
  | Bytes
  | Chunk
  | BytesStream
deriving DecidableEq

/-- `NotifyMethod`. -/
inductive NotifyMethod where
  | Log
  | ProgressBar
  | Silent
deriving DecidableEq

/-- An installed encryption method: the `encrypt`/`decrypt` pair the coordinator
calls, each taking the data and the per-entry key. -/
structure EncMethod where
  encrypt : Bytes → Bytes → Bytes
  decrypt : Bytes → Bytes → Bytes

/-- One `compare_and_swap` call issued against the store, with the expected
prior, the desired value and the (discarded) success flag. -/
structure CasOp where
  key : Bytes
  expected : Option Bytes
  desired : Option Bytes
  success : Bool
deriving DecidableEq

/-- The `Fetcher` state. `db` is threaded explicitly through the operations
(the sled handle is shared mutable state); the reqwest client plus `resp_bytes`
is the `http` function; `config_path`, `db_path` and the progress sink carry no
cache-relevant state and are omitted. -/
structure Fetcher where
  entries : List SimpleEntry
  config : List SimpleEntry
  http : Bytes → Bytes
  response_method : ResponseMethod
  notify_method : NotifyMethod
  encryption_method : Option EncMethod

/-- `Fetcher::set_response_method`: stores the method, and when it is `Chunk`
or `BytesStream` also switches the notify method to `ProgressBar`. -/
def Fetcher.set_response_method (f : Fetcher) (m : ResponseMethod) : Fetcher :=
  let f1 : Fetcher := { f with response_method := m }
  if m = ResponseMethod.Chunk ∨ m = ResponseMethod.BytesStream then
    { f1 with notify_method := NotifyMethod.ProgressBar }
  else f1

/-- `Fetcher::set_notify_method`: stores the method; the source's
`if notify_method == NotifyMethod::ProgressBar {}` guard has an empty body and
performs no check against the current response method. -/
def Fetcher.set_notify_method (f : Fetcher) (m : NotifyMethod) : Fetcher :=
  { f with notify_method := m }

/-- `Fetcher::encrypt_bytes`: encrypt under the installed method, or copy. -/
def Fetcher.encrypt_bytes (f : Fetcher) (bytes key : Bytes) : Bytes :=
  match f.encryption_method with
  | some m => m.encrypt bytes key
  | none => bytes

/-- `Fetcher::dec_or_clone`: decrypt under the installed method, or copy. -/
def dec_or_clone (enc : Option EncMethod) (value key : Bytes) : Bytes :=
  match enc with
  | some m => m.decrypt value key
  | none => value

/-- The value a handler stores for an entry after a GET: the entry's value with
the response slot set to the optionally-encrypted body
(`value.set_response(&self.encrypt_bytes(bytes, &key.bytes()))`). -/
def Fetcher.fetched_value (f : Fetcher) (e : SimpleEntry) : SimpleValue :=
  e.value.set_response (f.encrypt_bytes (f.http e.value.url) e.key)

/-! ### Per-entry handlers and fetch passes -/

/-- `Fetcher::handle_entry_conc`, instrumented. Returns the resulting store,
the number of HTTP GETs issued, and the `compare_and_swap` calls made.
`interf` is the store mutation performed by other tasks while this handler is
suspended awaiting its HTTP request (between the `db.get` and the store write);
the purely sequential handler is obtained with `interf = id`. -/
def Fetcher.handle_entry_conc_run (f : Fetcher) (entry : SimpleEntry) (db : Store)
    (interf : Store → Store) : Store × Nat × List CasOp :=
  let key := entry.key
  match Store.get db key with
  | some currVal =>
      let cvBytes := currVal
      let cv := SimpleValue.from_ivec currVal
      if !(entry.value.is_same cv) then
        -- stale: identity differs; GET, then CAS against the loaded prior
        let value := entry.value.set_response (f.encrypt_bytes (f.http entry.value.url) key)
        let db1 := interf db
        let r := Store.compareAndSwap db1 key (some cvBytes) (some value.bytes)
        (r.1, 1, [⟨key, some cvBytes, some value.bytes, r.2⟩])
      else
        -- hit: identity unchanged; no GET, no write
        (db, 0, [])
  | none =>
      -- miss: GET, then unconditional insert
      let value := entry.value.set_response (f.encrypt_bytes (f.http entry.value.url) key)
      let db1 := interf db
      (Store.insert db1 key value.bytes, 1, [])

/-- `Fetcher::handle_entry_conc` without interference: store and GET count. -/
def Fetcher.handle_entry_conc (f : Fetcher) (entry : SimpleEntry) (db : Store) :
    Store × Nat :=
  let r := f.handle_entry_conc_run entry db id
  (r.1, r.2.1)

/-- `Fetcher::handle_entry_channel`: the consumer side of the channel pass.
A message with a payload is the miss path (the producer already issued the GET)
and is inserted unconditionally; a message without one re-checks the store and
applies the hit/stale decision; a message without a payload whose key is now
absent is dropped. -/
def Fetcher.handle_entry_channel (f : Fetcher) (entry : SimpleEntry)
    (bytes? : Option Bytes) (db : Store) : Store × Nat × List CasOp :=
  let key := entry.key
  match bytes? with
  | some b =>
      let value := entry.value.set_response (f.encrypt_bytes b key)
      (Store.insert db key value.bytes, 0, [])
  | none =>
      match Store.get db key with
      | some currVal =>
          let cvBytes := currVal
          let cv := SimpleValue.from_ivec currVal
          if !(entry.value.is_same cv) then
            let value := entry.value.set_response (f.encrypt_bytes (f.http entry.value.url) key)
            let r := Store.compareAndSwap db key (some cvBytes) (some value.bytes)
            (r.1, 1, [⟨key, some cvBytes, some value.bytes, r.2⟩])
          else (db, 0, [])
      | none => (db, 0, [])

/-- One fetch pass over a list of entries (the linearisation of the
per-entry tasks spawned by `concurrent_fetch`): the final store and the total
number of GETs. -/
def Fetcher.fetchList (f : Fetcher) : List SimpleEntry → Store → Store × Nat
  | [], db => (db, 0)
  | e :: es, db =>
      let r := f.handle_entry_conc e db
      let rest := f.fetchList es r.1
      (rest.1, r.2 + rest.2)

/-- `Fetcher::concurrent_fetch`: one task per entry of `self.entries`
(note: `self.entries`, not `self.config`), all awaited. -/
def Fetcher.concurrent_fetch (f : Fetcher) (db : Store) : Store × Nat :=
  f.fetchList f.entries db

/-- The producer side of `Fetcher::channel_fetch` for one entry: if the key is
absent from the store it GETs the body, otherwise it posts no payload. All
producers run (and complete) against the store as it was when the pass started,
before the consumer drains the channel. -/
def Fetcher.channelProduce (f : Fetcher) (db0 : Store) (e : SimpleEntry) :
    SimpleEntry × Option Bytes :=
  if Store.containsKey db0 e.key then (e, none)
  else (e, some (f.http e.value.url))

/-- The consumer loop of `channel_fetch`: drains the messages in order. -/
def Fetcher.channelConsume (f : Fetcher) :
    List (SimpleEntry × Option Bytes) → Store → Store × Nat
  | [], db => (db, 0)
  | (e, b?) :: ms, db =>
      let r := f.handle_entry_channel e b? db
      let rest := f.channelConsume ms r.1
      (rest.1, r.2.1 + rest.2)

/-- `Fetcher::channel_fetch`: bounded producer/consumer pass. The producers
all check the initial store; GETs are those of the producers plus any issued
by the consumer on the stale path. -/
def Fetcher.channel_fetch (f : Fetcher) (db0 : Store) : Store × Nat :=
  let msgs := f.entries.map (f.channelProduce db0)
  let producerGets := msgs.countP (fun m => m.2.isSome)
  let r := f.channelConsume msgs db0
  (r.1, producerGets + r.2)

/-- `Fetcher::update`: read the prior; if the new value's identity differs,
CAS-replace it (expected prior = the bytes just read); otherwise, and when the
key is absent, do nothing. Returns the store and the CAS calls issued; the
source returns `Ok(())` in every case. -/
def Fetcher.update (f : Fetcher) (key : Bytes) (value : SimpleValue) (db : Store) :
    Store × List CasOp :=
  match Store.get db key with
  | some currVal =>
      let cvBytes := currVal
      let cv := SimpleValue.from_ivec currVal
      if !(value.is_same cv) then
        let r := Store.compareAndSwap db key (some cvBytes) (some value.bytes)
        (r.1, [⟨key, some cvBytes, some value.bytes, r.2⟩])
      else (db, [])
  | none => (db, [])

/-! ### Watch loop (`handle_event`) -/

/-- The filesystem event kinds `handle_event` distinguishes. -/
inductive EventKind where
  | modify
  | remove
  | other

/-- `Fetcher::handle_event`. On `Modify` the config is reloaded from the file
(`newConfig` models the parsed file contents) into `self.config`, and then
`concurrent_fetch` runs — over `self.entries`, which the reload does not touch.
On `Remove` the db is cleared. Returns the new fetcher state, the store, and
the number of GETs issued. -/
def Fetcher.handle_event (f : Fetcher) (ev : EventKind) (newConfig : List SimpleEntry)
    (db : Store) : Fetcher × Store × Nat :=
  match ev with
  | EventKind.modify =>
      let f1 : Fetcher := { f with config := newConfig }
      let r := f1.concurrent_fetch db
      (f1, r.1, r.2)
  | EventKind.remove => (f, [], 0)
  | EventKind.other => (f, db, 0)

/-! ### Materialization (`write_all`) -/

/-- The last path segment of a URL: the suffix after the final slash
(models `Url::parse(url).path_segments().last()` for the download URLs the
coordinator handles, whose paths carry no query or fragment). -/
def lastSegment (url : Bytes) : Bytes :=
  (url.reverse.takeWhile (fun c => c != 47)).reverse

/-- `dir.join(file_name)`. -/
def pathJoin (dir name : Bytes) : Bytes := dir ++ 47 :: name

/-- The filesystem state `write_all` acts on: existing directories and the
files written (path to contents). -/
structure FS where
  dirs : List Bytes
  files : List (Bytes × Bytes)
deriving DecidableEq

/-- `create_dir` guarded by `!dir.exists()`. -/
def FS.addDir (fs : FS) (d : Bytes) : FS :=
  if d ∈ fs.dirs then fs else { fs with dirs := d :: fs.dirs }

/-- `tokio::fs::write`. -/
def FS.writeFile (fs : FS) (p c : Bytes) : FS :=
  { fs with files := Store.insert fs.files p c }

/-- The loop of `Fetcher::write_all` over the entry list: for each entry, read
its cache record (`none` models the `unwrap` aborting on a missing key), decode
it, derive the file name from the decoded record's URL, create `dir` when
absent, decrypt the payload and write it. Returns the filesystem and the list
of writes issued (in entry order). -/
def Fetcher.writeAllGo (f : Fetcher) (db : Store) (dir : Bytes) :
    List SimpleEntry → FS → Option (FS × List (Bytes × Bytes))
  | [], fs => some (fs, [])
  | e :: es, fs =>
      match Store.get db e.key with
      | none => none
      | some ivec =>
          let value := SimpleValue.from_ivec ivec
          let fileName := lastSegment value.url
          let path := pathJoin dir fileName
          let fs1 := FS.addDir fs dir
          let bytes := dec_or_clone f.encryption_method value.response e.key
          match f.writeAllGo db dir es (fs1.writeFile path bytes) with
          | none => none
          | some (fs2, ws) => some (fs2, (path, bytes) :: ws)

/-- `Fetcher::write_all`. -/
def Fetcher.write_all (f : Fetcher) (db : Store) (dir : Bytes) (fs : FS) :
    Option (FS × List (Bytes × Bytes)) :=
  f.writeAllGo db dir f.entries fs

/-! ### The AEAD envelope (`quickfetch_traits`) -/

/-- `NONCE_SIZE`. -/
def NONCE_SIZE : Nat := 12

/-- An AEAD primitive (the `Aead + KeyInit` cipher): `sealAead key nonce plaintext`
produces the tagged ciphertext, `openAead key nonce ciphertext` recovers the
plaintext or fails authentication. -/
structure AeadCipher where
  sealAead : Bytes → Bytes → Bytes → Bytes
  openAead : Bytes → Bytes → Bytes → Option Bytes

/-- `encrypt_generic`: builds the cipher from the key, draws a fresh random
12-byte nonce (here the explicit `nonce` argument), seals the data, and returns
`cipher.encrypt(nonce, data)` as is — the nonce is NOT prepended to the
returned ciphertext. -/
def encrypt_generic (c : AeadCipher) (nonce : Bytes) (data key : Bytes) : Bytes :=
  c.sealAead key nonce data

/-- `decrypt_generic`: splits the first `NONCE_SIZE` bytes of the input off as
the nonce and opens the remainder (`none` models the `unwrap` aborting on an
authentication failure). -/
def decrypt_generic (c : AeadCipher) (data key : Bytes) : Option Bytes :=
  let nonce := data.take NONCE_SIZE
  let ciphertext := data.drop NONCE_SIZE
  c.openAead key nonce ciphertext

/-- A 16-byte authentication tag for the reference cipher below. -/
def toyTag (key nonce p : Bytes) : Bytes :=
  List.replicate 16 ((key.sum + nonce.sum + p.sum + p.length) % 256)

/-- A concrete lawful AEAD instance (ciphertext = plaintext plus a 16-byte tag
bound to key, nonce and plaintext), used to evaluate the generic envelope
functions on concrete inputs; `toyAead_open_seal` below proves its AEAD
round-trip law. -/
def toyAead : AeadCipher where
  sealAead := fun k n p => p ++ toyTag k n p
  openAead := fun k n c =>
    let p := c.take (c.length - 16)
    let t := c.drop (c.length - 16)
    if 16 ≤ c.length ∧ t = toyTag k n p then some p else none

/-! ### Auxiliary predicates and concrete instances -/

/-- The per-entry cache post-condition (§3 invariant): the store holds a record
under the entry's key whose decoded value is identity-equal to the entry's
value. -/
def cached (db : Store) (e : SimpleEntry) : Prop :=
  ∃ b, Store.get db e.key = some b ∧
    e.value.is_same (SimpleValue.from_ivec b) = true

/-- Sequential insertion of the freshly fetched value of every entry — the
common behaviour of both dispatch modes on a store none of the keys hit. -/
def insertRun (f : Fetcher) : List SimpleEntry → Store → Store
  | [], db => db
  | e :: es, db => insertRun f es (Store.insert db e.key (f.fetched_value e).bytes)

/-- A one-entry fetcher used to evaluate the theorems on concrete inputs. -/
def sampleEntry : SimpleEntry := ⟨[1], ⟨[2], [10, 47, 20], []⟩⟩

/-- A concrete fetcher over `sampleEntry`, echoing URLs as bodies. -/
def sampleFetcher : Fetcher :=
  { entries := [sampleEntry], config := [sampleEntry], http := fun u => u,
    response_method := ResponseMethod.Bytes, notify_method := NotifyMethod.Log,
    encryption_method := none }

/-- Concrete entry for the lost-race scenario: version `[2]` at key `[1]`. -/
def cx3Entry : SimpleEntry := ⟨[1], ⟨[2], [3], []⟩⟩

/-- The record found in the store (stale version `[7]`). -/
def cx3Old : SimpleValue := ⟨[7], [3], []⟩

/-- The record a concurrent writer installs during the handler's GET. -/
def cx3Other : SimpleValue := ⟨[8], [3], []⟩

/-- Store holding the stale record. -/
def cx3Db : Store := [([1], cx3Old.bytes)]

/-- Interference during the awaited GET: the concurrent writer wins. -/
def cx3Interf : Store → Store := fun _ => [([1], cx3Other.bytes)]

/-- Fetcher for the lost-race scenario. -/
def cx3Fetcher : Fetcher :=
  { entries := [cx3Entry], config := [cx3Entry], http := fun _ => [9],
    response_method := ResponseMethod.Bytes, notify_method := NotifyMethod.Log,
    encryption_method := none }

/-- Two entries with the same key `[1]` but different versions `[1]`/`[2]`. -/
def cx4Fetcher : Fetcher :=
  { entries := [⟨[1], ⟨[1], [10], []⟩⟩, ⟨[1], ⟨[2], [11], []⟩⟩],
    config := [], http := fun u => u,
    response_method := ResponseMethod.Bytes, notify_method := NotifyMethod.Log,
    encryption_method := none }

/-- Two entries with the same key `[1]` and version `[5]` but different URLs. -/
def cx7Fetcher : Fetcher :=
  { entries := [⟨[1], ⟨[5], [10], []⟩⟩, ⟨[1], ⟨[5], [11], []⟩⟩],
    config := [], http := fun u => u,
    response_method := ResponseMethod.Bytes, notify_method := NotifyMethod.Log,
    encryption_method := none }

/-- The entry present in the config at construction time. -/
def cx6Entry1 : SimpleEntry := ⟨[1], ⟨[1], [10], []⟩⟩

/-- The entry appended to the config file afterwards. -/
def cx6Entry2 : SimpleEntry := ⟨[2], ⟨[1], [20], []⟩⟩

/-- A fetcher constructed from a config holding only `cx6Entry1`. -/
def cx6Fetcher : Fetcher :=
  { entries := [cx6Entry1], config := [cx6Entry1], http := fun u => u,
    response_method := ResponseMethod.Bytes, notify_method := NotifyMethod.Log,
    encryption_method := none }

/-- The store after the initial fetch pass of `cx6Fetcher`. -/
def cx6Db : Store := (cx6Fetcher.concurrent_fetch []).1

/-- Entry whose current config URL ends in segment `[20]`. -/
def cx8Entry : SimpleEntry := ⟨[1], ⟨[5], [10, 47, 20], []⟩⟩

/-- The cached record for `cx8Entry`: same identity (version `[5]`), but the
URL it was fetched from ends in segment `[21]`. -/
def cx8Stored : SimpleValue := ⟨[5], [10, 47, 21], [77]⟩

/-- Fetcher for the materialization scenario. -/
def cx8Fetcher : Fetcher :=
  { entries := [cx8Entry], config := [cx8Entry], http := fun u => u,
    response_method := ResponseMethod.Bytes, notify_method := NotifyMethod.Log,
    encryption_method := none }

/-- Store holding the cached record for `cx8Entry`. -/
def cx8Db : Store := [([1], cx8Stored.bytes)]

/-- A 32-byte AEAD key (the valid AES-256 length). -/
def cx2Key : Bytes := List.replicate 32 0

/-- A 12-byte nonce. -/
def cx2Nonce : Bytes := List.replicate 12 5

/-- A plaintext. -/
def cx2Data : Bytes := [1, 2, 3]

/-! ### Helper lemmas -/

theorem from_ivec_bytes (v : SimpleValue) : SimpleValue.from_ivec v.bytes = v := by
  cases v with
  | mk ver url resp =>
      simp [SimpleValue.bytes, SimpleValue.from_ivec, encodeField, decodeField,
        List.cons_append, List.take_left, List.drop_left]

theorem is_same_set_response (v : SimpleValue) (r : Bytes) :
    v.is_same (v.set_response r) = true := by
  simp [SimpleValue.is_same, SimpleValue.set_response]

theorem get_insert_self (s : Store) (k v : Bytes) :
    Store.get (Store.insert s k v) k = some v := by
  induction s with
  | nil => simp [Store.insert, Store.get]
  | cons p rest ih =>
      by_cases h : p.1 = k <;> simp [Store.insert, Store.get, h, ih]

theorem get_insert_ne (s : Store) (k k' v : Bytes) (h : k' ≠ k) :
    Store.get (Store.insert s k v) k' = Store.get s k' := by
  induction s with
  | nil =>
      have hkk : ¬ k = k' := fun hh => h hh.symm
      simp [Store.insert, Store.get, hkk]
  | cons p rest ih =>
      have hkk : ¬ k = k' := fun hh => h hh.symm
      by_cases hp : p.1 = k
      · simp [Store.insert, Store.get, hp, hkk]
      · simp [Store.insert, Store.get, hp, ih]

theorem handle_entry_conc_miss (f : Fetcher) (e : SimpleEntry) (db : Store)
    (h : Store.get db e.key = none) :
    f.handle_entry_conc e db
      = (Store.insert db e.key (f.fetched_value e).bytes, 1) := by
  simp [Fetcher.handle_entry_conc, Fetcher.handle_entry_conc_run, h,
    Fetcher.fetched_value]

theorem handle_entry_conc_hit (f : Fetcher) (e : SimpleEntry) (db : Store)
    (cv : Bytes) (h1 : Store.get db e.key = some cv)
    (h2 : e.value.is_same (SimpleValue.from_ivec cv) = true) :
    f.handle_entry_conc e db = (db, 0) := by
  simp [Fetcher.handle_entry_conc, Fetcher.handle_entry_conc_run, h1, h2]

theorem handle_entry_conc_stale (f : Fetcher) (e : SimpleEntry) (db : Store)
    (cv : Bytes) (h1 : Store.get db e.key = some cv)
    (h2 : e.value.is_same (SimpleValue.from_ivec cv) = false) :
    f.handle_entry_conc e db
      = (Store.insert db e.key (f.fetched_value e).bytes, 1) := by
  simp [Fetcher.handle_entry_conc, Fetcher.handle_entry_conc_run, h1, h2,
    Store.compareAndSwap, Fetcher.fetched_value]

theorem handle_entry_conc_frame (f : Fetcher) (e : SimpleEntry) (db : Store)
    (k : Bytes) (h : k ≠ e.key) :
    Store.get (f.handle_entry_conc e db).1 k = Store.get db k := by
  rcases hg : Store.get db e.key with _ | cv
  · rw [handle_entry_conc_miss f e db hg]
    exact get_insert_ne db e.key k _ h
  · cases hs : e.value.is_same (SimpleValue.from_ivec cv) with
    | false =>
        rw [handle_entry_conc_stale f e db cv hg hs]
        exact get_insert_ne db e.key k _ h
    | true => rw [handle_entry_conc_hit f e db cv hg hs]

theorem handle_entry_conc_cached (f : Fetcher) (e : SimpleEntry) (db : Store) :
    cached (f.handle_entry_conc e db).1 e := by
  rcases hg : Store.get db e.key with _ | cv
  · refine ⟨(f.fetched_value e).bytes, ?_, ?_⟩
    · rw [handle_entry_conc_miss f e db hg]
      exact get_insert_self db e.key _
    · rw [from_ivec_bytes]
      exact is_same_set_response e.value _
  · cases hs : e.value.is_same (SimpleValue.from_ivec cv) with
    | false =>
        refine ⟨(f.fetched_value e).bytes, ?_, ?_⟩
        · rw [handle_entry_conc_stale f e db cv hg hs]
          exact get_insert_self db e.key _
        · rw [from_ivec_bytes]
          exact is_same_set_response e.value _
    | true =>
        refine ⟨cv, ?_, hs⟩
        rw [handle_entry_conc_hit f e db cv hg hs]
        exact hg

theorem fetchList_frame (f : Fetcher) (es : List SimpleEntry) (db : Store)
    (k : Bytes) (h : ∀ e ∈ es, e.key ≠ k) :
    Store.get (f.fetchList es db).1 k = Store.get db k := by
  induction es generalizing db with
  | nil => rfl
  | cons a as ih =>
      show Store.get (f.fetchList as (f.handle_entry_conc a db).1).1 k = _
      rw [ih _ (fun e he => h e (List.mem_cons_of_mem a he))]
      exact handle_entry_conc_frame f a db k (Ne.symm (h a (List.mem_cons_self a as)))

theorem fetchList_cached (f : Fetcher) (es : List SimpleEntry) (db : Store)
    (hnd : (es.map SimpleEntry.key).Nodup) :
    ∀ e ∈ es, cached (f.fetchList es db).1 e := by
  induction es generalizing db with
  | nil => intro e he; cases he
  | cons a as ih =>
      rw [List.map_cons, List.nodup_cons] at hnd
      intro e he
      rcases List.mem_cons.mp he with rfl | hmem
      · obtain ⟨b, hb, hs⟩ := handle_entry_conc_cached f e db
        refine ⟨b, ?_, hs⟩
        show Store.get (f.fetchList as (f.handle_entry_conc e db).1).1 e.key = some b
        rw [fetchList_frame f as _ e.key ?_]
        · exact hb
        · intro e' he' hk
          exact hnd.1 (hk ▸ List.mem_map_of_mem SimpleEntry.key he')
      · exact ih _ hnd.2 e hmem

theorem fetchList_all_hit (f : Fetcher) (es : List SimpleEntry) (db : Store)
    (h : ∀ e ∈ es, cached db e) :
    f.fetchList es db = (db, 0) := by
  induction es with
  | nil => rfl
  | cons a as ih =>
      obtain ⟨b, hb, hs⟩ := h a (List.mem_cons_self a as)
      show (let r := f.handle_entry_conc a db
            let rest := f.fetchList as r.1
            (rest.1, r.2 + rest.2)) = (db, 0)
      rw [handle_entry_conc_hit f a db b hb hs]
      simpa using ih (fun e he => h e (List.mem_cons_of_mem a he))

theorem fetchList_fresh (f : Fetcher) (es : List SimpleEntry) (db : Store)
    (hfresh : ∀ e ∈ es, Store.get db e.key = none)
    (hnd : (es.map SimpleEntry.key).Nodup) :
    (f.fetchList es db).1 = insertRun f es db := by
  induction es generalizing db with
  | nil => rfl
  | cons a as ih =>
      rw [List.map_cons, List.nodup_cons] at hnd
      show (f.fetchList as (f.handle_entry_conc a db).1).1 = _
      rw [handle_entry_conc_miss f a db (hfresh a (List.mem_cons_self a as))]
      rw [insertRun]
      refine ih _ ?_ hnd.2
      intro e he
      rw [get_insert_ne]
      · exact hfresh e (List.mem_cons_of_mem a he)
      · intro hk
        exact hnd.1 (hk ▸ List.mem_map_of_mem SimpleEntry.key he)

theorem channelConsume_fresh (f : Fetcher) (es : List SimpleEntry)
    (db0 db : Store)
    (hfresh : ∀ e ∈ es, Store.containsKey db0 e.key = false) :
    (f.channelConsume (es.map (f.channelProduce db0)) db).1 = insertRun f es db := by
  induction es generalizing db with
  | nil => rfl
  | cons a as ih =>
      rw [List.map_cons]
      show (f.channelConsume (as.map (f.channelProduce db0))
              (f.handle_entry_channel (f.channelProduce db0 a).1
                (f.channelProduce db0 a).2 db).1).1 = _
      rw [show f.channelProduce db0 a = (a, some (f.http a.value.url)) by
        simp [Fetcher.channelProduce, hfresh a (List.mem_cons_self a as)]]
      rw [insertRun]
      exact ih _ (fun e he => hfresh e (List.mem_cons_of_mem a he))

theorem channelProduce_fst (f : Fetcher) (db0 : Store) (e : SimpleEntry) :
    (f.channelProduce db0 e).1 = e := by
  unfold Fetcher.channelProduce
  split <;> rfl

theorem handle_entry_channel_hit (f : Fetcher) (e : SimpleEntry) (db : Store)
    (cv : Bytes) (h1 : Store.get db e.key = some cv)
    (h2 : e.value.is_same (SimpleValue.from_ivec cv) = true) :
    f.handle_entry_channel e none db = (db, 0, []) := by
  simp [Fetcher.handle_entry_channel, h1, h2]

theorem handle_entry_channel_frame (f : Fetcher) (e : SimpleEntry)
    (b? : Option Bytes) (db : Store) (k : Bytes) (h : k ≠ e.key) :
    Store.get (f.handle_entry_channel e b? db).1 k = Store.get db k := by
  rcases b? with _ | b
  · rcases hg : Store.get db e.key with _ | cv
    · simp [Fetcher.handle_entry_channel, hg]
    · cases hs : e.value.is_same (SimpleValue.from_ivec cv) with
      | false =>
          simp only [Fetcher.handle_entry_channel, hg, hs, Store.compareAndSwap,
            Bool.not_false, if_true, if_pos rfl]
          exact get_insert_ne db e.key k _ h
      | true => simp [Fetcher.handle_entry_channel, hg, hs]
  · simp only [Fetcher.handle_entry_channel]
    exact get_insert_ne db e.key k _ h

theorem handle_entry_channel_keeps (f : Fetcher) (e : SimpleEntry)
    (b? : Option Bytes) (db : Store) (k : Bytes)
    (h : (Store.get db k).isSome = true) :
    (Store.get (f.handle_entry_channel e b? db).1 k).isSome = true := by
  by_cases hk : k = e.key
  · subst hk
    rcases b? with _ | b
    · rcases hg : Store.get db e.key with _ | cv
      · rw [hg] at h
        cases h
      · cases hs : e.value.is_same (SimpleValue.from_ivec cv) with
        | false =>
            simp [Fetcher.handle_entry_channel, hg, hs, Store.compareAndSwap,
              get_insert_self]
        | true =>
            rw [handle_entry_channel_hit f e db cv hg hs]
            exact h
    · simp [Fetcher.handle_entry_channel, get_insert_self]
  · rw [handle_entry_channel_frame f e b? db k hk]
    exact h

theorem handle_entry_channel_cached (f : Fetcher) (e : SimpleEntry)
    (b? : Option Bytes) (db : Store)
    (hp : b? = none → (Store.get db e.key).isSome = true) :
    cached (f.handle_entry_channel e b? db).1 e := by
  rcases b? with _ | b
  · rcases hg : Store.get db e.key with _ | cv
    · have := hp rfl
      rw [hg] at this
      cases this
    · cases hs : e.value.is_same (SimpleValue.from_ivec cv) with
      | false =>
          refine ⟨(f.fetched_value e).bytes, ?_, ?_⟩
          · simp [Fetcher.handle_entry_channel, hg, hs, Store.compareAndSwap,
              Fetcher.fetched_value, get_insert_self]
          · rw [from_ivec_bytes]
            exact is_same_set_response e.value _
      | true =>
          refine ⟨cv, ?_, hs⟩
          rw [handle_entry_channel_hit f e db cv hg hs]
          exact hg
  · refine ⟨(e.value.set_response (f.encrypt_bytes b e.key)).bytes, ?_, ?_⟩
    · simp [Fetcher.handle_entry_channel, get_insert_self]
    · rw [from_ivec_bytes]
      exact is_same_set_response e.value _

theorem channelConsume_frame (f : Fetcher) (ms : List (SimpleEntry × Option Bytes))
    (db : Store) (k : Bytes) (h : ∀ m ∈ ms, m.1.key ≠ k) :
    Store.get (f.channelConsume ms db).1 k = Store.get db k := by
  induction ms generalizing db with
  | nil => rfl
  | cons m ms ih =>
      obtain ⟨e, b?⟩ := m
      show Store.get (f.channelConsume ms (f.handle_entry_channel e b? db).1).1 k = _
      rw [ih _ (fun m hm => h m (List.mem_cons_of_mem _ hm))]
      exact handle_entry_channel_frame f e b? db k
        (Ne.symm (h ⟨e, b?⟩ (List.mem_cons_self _ _)))

theorem channelConsume_cached (f : Fetcher) (es : List SimpleEntry)
    (db0 db : Store) (hnd : (es.map SimpleEntry.key).Nodup)
    (hpres : ∀ e ∈ es, Store.containsKey db0 e.key = true →
      (Store.get db e.key).isSome = true) :
    ∀ e ∈ es, cached (f.channelConsume (es.map (f.channelProduce db0)) db).1 e := by
  induction es generalizing db with
  | nil => intro e he; cases he
  | cons a as ih =>
      rw [List.map_cons, List.nodup_cons] at hnd
      intro e he
      rcases List.mem_cons.mp he with rfl | hmem
      · have hca : cached (f.handle_entry_channel (f.channelProduce db0 e).1
            (f.channelProduce db0 e).2 db).1 e := by
          by_cases hc : Store.containsKey db0 e.key
          · rw [show f.channelProduce db0 e = (e, none) by
              simp [Fetcher.channelProduce, hc]]
            exact handle_entry_channel_cached f e none db
              (fun _ => hpres e (List.mem_cons_self e as) hc)
          · rw [show f.channelProduce db0 e = (e, some (f.http e.value.url)) by
              simp [Fetcher.channelProduce, hc]]
            exact handle_entry_channel_cached f e _ db (by intro h; cases h)
        obtain ⟨b, hb, hs⟩ := hca
        refine ⟨b, ?_, hs⟩
        rw [List.map_cons]
        show Store.get (f.channelConsume (as.map (f.channelProduce db0))
            (f.handle_entry_channel (f.channelProduce db0 e).1
              (f.channelProduce db0 e).2 db).1).1 e.key = some b
        rw [channelConsume_frame f _ _ e.key ?_]
        · exact hb
        · intro m hm hk
          obtain ⟨e', he', hme⟩ := List.mem_map.mp hm
          have hfst : m.1 = e' := by rw [← hme, channelProduce_fst]
          exact hnd.1 ((hfst ▸ hk) ▸ List.mem_map_of_mem SimpleEntry.key he')
      · rw [List.map_cons]
        show cached (f.channelConsume (as.map (f.channelProduce db0))
            (f.handle_entry_channel (f.channelProduce db0 a).1
              (f.channelProduce db0 a).2 db).1).1 e
        refine ih _ hnd.2 ?_ e hmem
        intro e' he' hc
        exact handle_entry_channel_keeps f _ _ db e'.key
          (hpres e' (List.mem_cons_of_mem a he') hc)

theorem channel_fetch_cached (f : Fetcher) (db : Store)
    (hnd : (f.entries.map SimpleEntry.key).Nodup) :
    ∀ e ∈ f.entries, cached (f.channel_fetch db).1 e := by
  intro e he
  exact channelConsume_cached f f.entries db db hnd (fun _ _ hc => hc) e he

theorem channelConsume_all_hit (f : Fetcher) (es : List SimpleEntry) (db : Store)
    (h : ∀ e ∈ es, cached db e) :
    f.channelConsume (es.map (f.channelProduce db)) db = (db, 0) := by
  induction es with
  | nil => rfl
  | cons a as ih =>
      obtain ⟨b, hb, hs⟩ := h a (List.mem_cons_self a as)
      have hc : Store.containsKey db a.key = true := by
        rw [Store.containsKey, hb]
        rfl
      rw [List.map_cons, show f.channelProduce db a = (a, none) by
        simp [Fetcher.channelProduce, hc]]
      show (let r := f.handle_entry_channel a none db
            let rest := f.channelConsume (as.map (f.channelProduce db)) r.1
            (rest.1, r.2.1 + rest.2)) = (db, 0)
      rw [handle_entry_channel_hit f a db b hb hs]
      simpa using ih (fun e he => h e (List.mem_cons_of_mem a he))

theorem channelProduce_gets_all_hit (f : Fetcher) (es : List SimpleEntry)
    (db : Store) (h : ∀ e ∈ es, cached db e) :
    (es.map (f.channelProduce db)).countP (fun m => m.2.isSome) = 0 := by
  rw [List.countP_eq_zero]
  intro m hm
  obtain ⟨e, he, rfl⟩ := List.mem_map.mp hm
  obtain ⟨b, hb, _⟩ := h e he
  have hc : Store.containsKey db e.key = true := by
    rw [Store.containsKey, hb]
    rfl
  simp [Fetcher.channelProduce, hc]

theorem channel_fetch_all_hit (f : Fetcher) (db : Store)
    (h : ∀ e ∈ f.entries, cached db e) :
    f.channel_fetch db = (db, 0) := by
  show ((f.channelConsume (f.entries.map (f.channelProduce db)) db).1,
        (f.entries.map (f.channelProduce db)).countP (fun m => m.2.isSome)
          + (f.channelConsume (f.entries.map (f.channelProduce db)) db).2)
      = (db, 0)
  rw [channelConsume_all_hit f f.entries db h,
    channelProduce_gets_all_hit f f.entries db h]
  rfl

theorem writeAllGo_dirs_mono (f : Fetcher) (db : Store) (dir : Bytes)
    (es : List SimpleEntry) (fs fs2 : FS) (ws : List (Bytes × Bytes)) (d : Bytes)
    (hrun : f.writeAllGo db dir es fs = some (fs2, ws)) (hd : d ∈ fs.dirs) :
    d ∈ fs2.dirs := by
  induction es generalizing fs ws with
  | nil =>
      rw [Fetcher.writeAllGo] at hrun
      cases hrun
      exact hd
  | cons a as ih =>
      rw [Fetcher.writeAllGo] at hrun
      rcases hg : Store.get db a.key with _ | ivec
      · rw [hg] at hrun; cases hrun
      · rw [hg] at hrun
        simp only at hrun
        rcases hrec : f.writeAllGo db dir as
            ((FS.addDir fs dir).writeFile
              (pathJoin dir (lastSegment (SimpleValue.from_ivec ivec).url))
              (dec_or_clone f.encryption_method (SimpleValue.from_ivec ivec).response a.key))
          with _ | p
        · rw [hrec] at hrun; cases hrun
        · rw [hrec] at hrun
          cases hrun
          refine ih _ _ hrec ?_
          show d ∈ (FS.addDir fs dir).dirs
          unfold FS.addDir
          split
          · exact hd
          · exact List.mem_cons_of_mem _ hd

theorem writeAllGo_spec (f : Fetcher) (db : Store) (dir : Bytes)
    (es : List SimpleEntry) (fs : FS)
    (h : ∀ e ∈ es, (Store.get db e.key).isSome) :
    ∃ fs2 ws, f.writeAllGo db dir es fs = some (fs2, ws)
      ∧ (es ≠ [] → dir ∈ fs2.dirs)
      ∧ ∀ e ∈ es, ∀ b, Store.get db e.key = some b →
          (pathJoin dir (lastSegment (SimpleValue.from_ivec b).url),
           dec_or_clone f.encryption_method (SimpleValue.from_ivec b).response e.key) ∈ ws := by
  induction es generalizing fs with
  | nil =>
      refine ⟨fs, [], rfl, ?_, ?_⟩
      · intro hne; exact absurd rfl hne
      · intro e he; cases he
  | cons a as ih =>
      have ha := h a (List.mem_cons_self a as)
      rcases hg : Store.get db a.key with _ | ivec
      · rw [hg] at ha; cases ha
      · obtain ⟨fs2, ws, hrun, hdir, hmem⟩ :=
          ih ((FS.addDir fs dir).writeFile
              (pathJoin dir (lastSegment (SimpleValue.from_ivec ivec).url))
              (dec_or_clone f.encryption_method (SimpleValue.from_ivec ivec).response a.key))
            (fun e he => h e (List.mem_cons_of_mem a he))
        refine ⟨fs2,
          (pathJoin dir (lastSegment (SimpleValue.from_ivec ivec).url),
           dec_or_clone f.encryption_method (SimpleValue.from_ivec ivec).response a.key) :: ws,
          ?_, ?_, ?_⟩
        · simp only [Fetcher.writeAllGo, hg, hrun]
        · intro _
          refine writeAllGo_dirs_mono f db dir as _ _ _ dir hrun ?_
          show dir ∈ (FS.addDir fs dir).dirs
          unfold FS.addDir
          split
          · assumption
          · exact List.mem_cons_self dir _
        · intro e he b hb
          rcases List.mem_cons.mp he with rfl | hmem2
          · rw [hg] at hb
            cases hb
            exact List.mem_cons_self _ _
          · exact List.mem_cons_of_mem _ (hmem e hmem2 b hb)

/-! ### Claim theorems -/

/-- C1. The per-entry decision procedure of `handle_entry_conc`: on a miss it
issues one GET and unconditionally inserts the serialized value (payload set to
the optionally-encrypted body) under the key's bytes; on an identity hit it
issues no GET and leaves the store unchanged; on an identity mismatch it issues
one GET and writes the new serialized value by a compare-and-swap whose
expected prior is the freshly-loaded prior bytes; and after processing the
store maps the key's bytes to a record identity-equal to the entry's value. -/
theorem handle_entry_conc_decision (f : Fetcher) (e : SimpleEntry) (db : Store) :
    (Store.get db e.key = none →
      (f.handle_entry_conc_run e db id).2.1 = 1 ∧
      (f.handle_entry_conc_run e db id).2.2 = [] ∧
      (f.handle_entry_conc_run e db id).1
        = Store.insert db e.key (f.fetched_value e).bytes)
  ∧ (∀ cv, Store.get db e.key = some cv →
      e.value.is_same (SimpleValue.from_ivec cv) = true →
      f.handle_entry_conc_run e db id = (db, 0, []))
  ∧ (∀ cv, Store.get db e.key = some cv →
      e.value.is_same (SimpleValue.from_ivec cv) = false →
      (f.handle_entry_conc_run e db id).2.1 = 1 ∧
      (f.handle_entry_conc_run e db id).2.2
        = [⟨e.key, some cv, some (f.fetched_value e).bytes, true⟩] ∧
      Store.get (f.handle_entry_conc_run e db id).1 e.key
        = some (f.fetched_value e).bytes)
  ∧ ∃ b, Store.get (f.handle_entry_conc_run e db id).1 e.key = some b ∧
      e.value.is_same (SimpleValue.from_ivec b) = true := by
  refine ⟨?_, ?_, ?_, ?_⟩
  · intro h
    simp [Fetcher.handle_entry_conc_run, h, Fetcher.fetched_value]
  · intro cv h1 h2
    simp [Fetcher.handle_entry_conc_run, h1, h2]
  · intro cv h1 h2
    refine ⟨?_, ?_, ?_⟩ <;>
      simp [Fetcher.handle_entry_conc_run, h1, h2, Store.compareAndSwap,
        Fetcher.fetched_value, get_insert_self]
  · have := handle_entry_conc_cached f e db
    obtain ⟨b, hb, hs⟩ := this
    exact ⟨b, hb, hs⟩

/-- C1 witness: the miss branch evaluated on `sampleFetcher` over the empty
store. -/
theorem handle_entry_conc_decision_witness :
    (sampleFetcher.handle_entry_conc_run sampleEntry [] id).2.1 = 1
  ∧ (sampleFetcher.handle_entry_conc_run sampleEntry [] id).2.2 = []
  ∧ (sampleFetcher.handle_entry_conc_run sampleEntry [] id).1
      = Store.insert [] sampleEntry.key (sampleFetcher.fetched_value sampleEntry).bytes :=
  (handle_entry_conc_decision sampleFetcher sampleEntry []).1 rfl

/-- C2. The generic AEAD envelope in `quickfetch_traits` is broken:
`encrypt_generic` returns the bare sealed ciphertext and discards the freshly
drawn nonce (it never prepends it), while `decrypt_generic` splits the first
12 bytes of its input off as the nonce. Evaluated on a lawful concrete AEAD
(first conjunct: the cipher's own round-trip law holds on this input), the
round-trip `decrypt(encrypt(data, key), key)` fails, and the encrypt output is
not the claimed `nonce || ciphertext` envelope. -/
theorem encrypt_generic_no_envelope :
    toyAead.openAead cx2Key cx2Nonce (toyAead.sealAead cx2Key cx2Nonce cx2Data)
      = some cx2Data
  ∧ decrypt_generic toyAead (encrypt_generic toyAead cx2Nonce cx2Data cx2Key) cx2Key
      = none
  ∧ encrypt_generic toyAead cx2Nonce cx2Data cx2Key
      ≠ cx2Nonce ++ toyAead.sealAead cx2Key cx2Nonce cx2Data := by
  decide

/-- The reference cipher satisfies the AEAD round-trip law for every key,
nonce and plaintext, so the failure exhibited in
`encrypt_generic_no_envelope` is not an artifact of the cipher. -/
theorem toyAead_open_seal (k n p : Bytes) :
    toyAead.openAead k n (toyAead.sealAead k n p) = some p := by
  have hlen : (p ++ toyTag k n p).length = p.length + 16 := by
    simp [toyTag]
  simp only [toyAead, hlen, Nat.add_sub_cancel]
  rw [List.take_left, List.drop_left]
  simp

/-- C3 (amended). Every compare-and-swap issued by the coordinator — the
stale-entry refresh of `handle_entry_conc` (under arbitrary interference at
its suspension point), the stale refresh of `handle_entry_channel`, and the
direct `update` — passes the previously-observed stored bytes as the expected
prior; and no handler issues more than one CAS in a single run, i.e. a failed
CAS is not retried within the pass. -/
theorem cas_expected_prior (f : Fetcher) (e : SimpleEntry) (db : Store)
    (interf : Store → Store) (key : Bytes) (v : SimpleValue) (b? : Option Bytes) :
    ((f.handle_entry_conc_run e db interf).2.2.length ≤ 1 ∧
      ∀ op ∈ (f.handle_entry_conc_run e db interf).2.2,
        op.key = e.key ∧ op.expected = Store.get db e.key)
  ∧ ((f.handle_entry_channel e b? db).2.2.length ≤ 1 ∧
      ∀ op ∈ (f.handle_entry_channel e b? db).2.2,
        op.key = e.key ∧ op.expected = Store.get db e.key)
  ∧ ((f.update key v db).2.length ≤ 1 ∧
      ∀ op ∈ (f.update key v db).2,
        op.key = key ∧ op.expected = Store.get db key) := by
  refine ⟨⟨?_, ?_⟩, ⟨?_, ?_⟩, ⟨?_, ?_⟩⟩
  · rcases hg : Store.get db e.key with _ | cv <;>
      simp [Fetcher.handle_entry_conc_run, hg] <;>
      cases hs : e.value.is_same (SimpleValue.from_ivec cv) <;> simp [hs]
  · intro op hop
    rcases hg : Store.get db e.key with _ | cv
    · simp [Fetcher.handle_entry_conc_run, hg] at hop
    · cases hs : e.value.is_same (SimpleValue.from_ivec cv) with
      | false =>
          simp [Fetcher.handle_entry_conc_run, hg, hs] at hop
          subst hop
          exact ⟨rfl, by simp [hg]⟩
      | true => simp [Fetcher.handle_entry_conc_run, hg, hs] at hop
  · rcases b? with _ | b
    · rcases hg : Store.get db e.key with _ | cv <;>
        simp [Fetcher.handle_entry_channel, hg] <;>
        cases hs : e.value.is_same (SimpleValue.from_ivec cv) <;> simp [hs]
    · simp [Fetcher.handle_entry_channel]
  · intro op hop
    rcases b? with _ | b
    · rcases hg : Store.get db e.key with _ | cv
      · simp [Fetcher.handle_entry_channel, hg] at hop
      · cases hs : e.value.is_same (SimpleValue.from_ivec cv) with
        | false =>
            simp [Fetcher.handle_entry_channel, hg, hs] at hop
            subst hop
            exact ⟨rfl, by simp [hg]⟩
        | true => simp [Fetcher.handle_entry_channel, hg, hs] at hop
    · simp [Fetcher.handle_entry_channel] at hop
  · rcases hg : Store.get db key with _ | cv <;>
      simp [Fetcher.update, hg] <;>
      cases hs : v.is_same (SimpleValue.from_ivec cv) <;> simp [hs]
  · intro op hop
    rcases hg : Store.get db key with _ | cv
    · simp [Fetcher.update, hg] at hop
    · cases hs : v.is_same (SimpleValue.from_ivec cv) with
      | false =>
          simp [Fetcher.update, hg, hs] at hop
          subst hop
          exact ⟨rfl, by simp [hg]⟩
      | true => simp [Fetcher.update, hg, hs] at hop

/-- C3 witness: the stale-path CAS of the lost-race scenario carries the
previously-observed bytes as its expected prior. -/
theorem cas_expected_prior_witness :
    (⟨[1], some cx3Old.bytes, some (cx3Fetcher.fetched_value cx3Entry).bytes,
        false⟩ : CasOp).key = cx3Entry.key
  ∧ (⟨[1], some cx3Old.bytes, some (cx3Fetcher.fetched_value cx3Entry).bytes,
        false⟩ : CasOp).expected = Store.get cx3Db cx3Entry.key :=
  ((cas_expected_prior cx3Fetcher cx3Entry cx3Db cx3Interf [] ⟨[], [], []⟩
      none).1).2
    ⟨[1], some cx3Old.bytes, some (cx3Fetcher.fetched_value cx3Entry).bytes,
      false⟩ (by decide)

/-- C3 counterexample to the retry clause: when a concurrent writer changes the
record while the handler awaits its GET, the CAS fails, its outcome is
discarded, the handler ends with the interfering store and the desired value
never installed — the run's trace holds exactly this one failed CAS, so the
failed CAS is not retried by re-reading and re-applying the decision. -/
theorem cas_no_retry_counterexample :
    (cx3Fetcher.handle_entry_conc_run cx3Entry cx3Db cx3Interf).2.2
      = [⟨[1], some cx3Old.bytes,
          some (cx3Fetcher.fetched_value cx3Entry).bytes, false⟩]
  ∧ (cx3Fetcher.handle_entry_conc_run cx3Entry cx3Db cx3Interf).1
      = cx3Interf cx3Db
  ∧ Store.get (cx3Fetcher.handle_entry_conc_run cx3Entry cx3Db cx3Interf).1 [1]
      ≠ some (cx3Fetcher.fetched_value cx3Entry).bytes := by
  decide

/-- C4 (amended). When the entries carry pairwise distinct keys, a second
fetch pass right after a first one leaves the store exactly as the first pass
left it and issues zero HTTP GETs — in the PerTask (concurrent) mode, in the
Pipelined (channel) mode, and for either combination of modes across the two
runs. -/
theorem fetch_idempotent (f : Fetcher) (db : Store)
    (hnd : (f.entries.map SimpleEntry.key).Nodup) :
    (f.concurrent_fetch (f.concurrent_fetch db).1 = ((f.concurrent_fetch db).1, 0))
  ∧ (f.channel_fetch (f.channel_fetch db).1 = ((f.channel_fetch db).1, 0))
  ∧ (f.channel_fetch (f.concurrent_fetch db).1 = ((f.concurrent_fetch db).1, 0))
  ∧ (f.concurrent_fetch (f.channel_fetch db).1 = ((f.channel_fetch db).1, 0)) := by
  have hc1 := fetchList_cached f f.entries db hnd
  have hc2 := channel_fetch_cached f db hnd
  exact ⟨fetchList_all_hit f f.entries _ hc1,
    channel_fetch_all_hit f _ hc2,
    channel_fetch_all_hit f _ hc1,
    fetchList_all_hit f f.entries _ hc2⟩

/-- C4 witness: the one-entry fetcher fetched twice from the empty store, in
both dispatch modes. -/
theorem fetch_idempotent_witness :
    (sampleFetcher.concurrent_fetch (sampleFetcher.concurrent_fetch []).1
      = ((sampleFetcher.concurrent_fetch []).1, 0))
  ∧ (sampleFetcher.channel_fetch (sampleFetcher.channel_fetch []).1
      = ((sampleFetcher.channel_fetch []).1, 0))
  ∧ (sampleFetcher.channel_fetch (sampleFetcher.concurrent_fetch []).1
      = ((sampleFetcher.concurrent_fetch []).1, 0))
  ∧ (sampleFetcher.concurrent_fetch (sampleFetcher.channel_fetch []).1
      = ((sampleFetcher.channel_fetch []).1, 0)) :=
  fetch_idempotent sampleFetcher [] (by decide)

/-- C4 counterexample to the unrestricted claim: with two entries sharing key
`[1]` under different versions, the second pass issues two GETs, not zero. -/
theorem fetch_twice_gets_counterexample :
    (cx4Fetcher.concurrent_fetch (cx4Fetcher.concurrent_fetch []).1).2 = 2
  ∧ (cx4Fetcher.concurrent_fetch (cx4Fetcher.concurrent_fetch []).1).2 ≠ 0 := by
  decide

/-- C5. `set_notify_method` performs no enforcement: setting the notify method
to `ProgressBar` while the response method is `Bytes` (the full-buffer mode)
is neither rejected nor corrected — the resulting state violates the mandated
invariant that `ProgressBar` implies `Chunk` or `BytesStream`. -/
theorem set_notify_method_no_enforcement :
    (sampleFetcher.set_notify_method NotifyMethod.ProgressBar).notify_method
      = NotifyMethod.ProgressBar
  ∧ (sampleFetcher.set_notify_method NotifyMethod.ProgressBar).response_method
      = ResponseMethod.Bytes := by
  constructor <;> rfl

/-- C6. On a `Modify` event the config field is reloaded, but the fetch pass
then runs over `self.entries`, which the reload leaves untouched: with the
reloaded config holding one appended entry (`cx6Entry2`), the store after the
event holds no record for it and is unchanged — it does not gain exactly one
new record for the appended entry. -/
theorem handle_event_stale_entries :
    Store.get (cx6Fetcher.handle_event EventKind.modify [cx6Entry1, cx6Entry2]
        cx6Db).2.1 cx6Entry2.key = none
  ∧ (cx6Fetcher.handle_event EventKind.modify [cx6Entry1, cx6Entry2] cx6Db).2.1
      = cx6Db
  ∧ (cx6Fetcher.handle_event EventKind.modify [cx6Entry1, cx6Entry2] cx6Db).1.config
      = [cx6Entry1, cx6Entry2] := by
  decide

/-- C7 (amended). From the empty store, with no cipher installed and entries
carrying pairwise distinct keys, the channel (Pipelined) pass and the
concurrent (PerTask) pass leave identical store contents. -/
theorem channel_concurrent_equiv (f : Fetcher)
    (henc : f.encryption_method = none)
    (hnd : (f.entries.map SimpleEntry.key).Nodup) :
    (f.channel_fetch []).1 = (f.concurrent_fetch []).1 := by
  have h1 : (f.channelConsume (f.entries.map (f.channelProduce [])) []).1
      = insertRun f f.entries [] :=
    channelConsume_fresh f f.entries [] [] (fun e _ => rfl)
  have h2 : (f.fetchList f.entries []).1 = insertRun f f.entries [] :=
    fetchList_fresh f f.entries [] (fun e _ => rfl) hnd
  show (f.channelConsume (f.entries.map (f.channelProduce [])) []).1
      = (f.fetchList f.entries []).1
  rw [h1, h2]

/-- C7 witness: the two passes agree on the one-entry fetcher. -/
theorem channel_concurrent_equiv_witness :
    (sampleFetcher.channel_fetch []).1 = (sampleFetcher.concurrent_fetch []).1 :=
  channel_concurrent_equiv sampleFetcher rfl (by decide)

/-- C7 counterexample to the unrestricted claim: two entries sharing key `[1]`
with equal versions but different URLs. The concurrent pass treats the second
as a hit and keeps the first record; the channel pass (whose producers all
check the initially empty store) inserts both, so the final record under `[1]`
differs between the two modes. -/
theorem channel_concurrent_differ_counterexample :
    Store.get (cx7Fetcher.channel_fetch []).1 [1]
      ≠ Store.get (cx7Fetcher.concurrent_fetch []).1 [1] := by
  decide

/-- C8 (amended). Given a record in the store for every entry, `write_all`
succeeds, creates the target directory on demand (once any entry is
processed), and for every entry issues a write of the stored record's
decrypted payload to `dir` joined with the last path segment of the STORED
record's URL (which the hit path may have kept from an earlier fetch; the
config entry's own URL is not consulted). -/
theorem write_all_materializes (f : Fetcher) (db : Store) (dir : Bytes) (fs : FS)
    (h : ∀ e ∈ f.entries, (Store.get db e.key).isSome) :
    ∃ fs2 ws, f.write_all db dir fs = some (fs2, ws)
      ∧ (f.entries ≠ [] → dir ∈ fs2.dirs)
      ∧ ∀ e ∈ f.entries, ∀ b, Store.get db e.key = some b →
          (pathJoin dir (lastSegment (SimpleValue.from_ivec b).url),
           dec_or_clone f.encryption_method (SimpleValue.from_ivec b).response e.key)
            ∈ ws :=
  writeAllGo_spec f db dir f.entries fs h

/-- C8 witness: materializing the sample store into directory `[100]`. -/
theorem write_all_materializes_witness :
    ∃ fs2 ws,
      sampleFetcher.write_all (sampleFetcher.concurrent_fetch []).1 [100] ⟨[], []⟩
        = some (fs2, ws)
      ∧ (sampleFetcher.entries ≠ [] → [100] ∈ fs2.dirs)
      ∧ ∀ e ∈ sampleFetcher.entries, ∀ b,
          Store.get (sampleFetcher.concurrent_fetch []).1 e.key = some b →
          (pathJoin [100] (lastSegment (SimpleValue.from_ivec b).url),
           dec_or_clone sampleFetcher.encryption_method
             (SimpleValue.from_ivec b).response e.key) ∈ ws :=
  write_all_materializes sampleFetcher (sampleFetcher.concurrent_fetch []).1 [100]
    ⟨[], []⟩ (by decide)

/-- C8 counterexample to the claim as stated: the store is a fixpoint of a
successful fetch pass (the pass is a no-op with zero GETs), yet the only write
goes to `dir/[21]` — the basename of the STORED record's URL — while the
basename of the entry's URL is `[20]`; no file is written under the path the
claim names, and the written contents are the stored payload `[77]`. -/
theorem write_all_url_counterexample :
    cx8Fetcher.concurrent_fetch cx8Db = (cx8Db, 0)
  ∧ cx8Fetcher.write_all cx8Db [100] ⟨[], []⟩
      = some (⟨[[100]], [([100, 47, 21], [77])]⟩, [([100, 47, 21], [77])])
  ∧ pathJoin [100] (lastSegment cx8Entry.value.url) ≠ [100, 47, 21] := by
  decide

/-- C9. `set_response_method` stores the method; with `Chunk` or `BytesStream`
it also overwrites the notify method with `ProgressBar` (discarding any prior
`Log` or `Silent` setting), with `Bytes` it leaves the notify method alone;
and every other field of the fetcher is unchanged in all cases. -/
theorem set_response_method_frame (f : Fetcher) (m : ResponseMethod) :
    (f.set_response_method m).response_method = m
  ∧ (f.set_response_method m).notify_method
      = (if m = ResponseMethod.Bytes then f.notify_method else NotifyMethod.ProgressBar)
  ∧ (f.set_response_method m).entries = f.entries
  ∧ (f.set_response_method m).config = f.config
  ∧ (f.set_response_method m).http = f.http
  ∧ (f.set_response_method m).encryption_method = f.encryption_method := by
  cases m <;> simp [Fetcher.set_response_method]

/-- C10. `update` on a key absent from the store returns successfully, leaves
the store entirely unchanged and issues no CAS: it never inserts a record for
a key that was not already present. -/
theorem update_absent_key_noop (f : Fetcher) (key : Bytes) (v : SimpleValue)
    (db : Store) (h : Store.get db key = none) :
    f.update key v db = (db, []) := by
  simp [Fetcher.update, h]

/-- C10 witness: updating an absent key of the empty store. -/
theorem update_absent_key_noop_witness :
    sampleFetcher.update [9] ⟨[1], [2], [3]⟩ [] = ([], []) :=
  update_absent_key_noop sampleFetcher [9] ⟨[1], [2], [3]⟩ [] rfl

end QuickFetch
